import Mathlib

/-!
Verification of `op-chain-ops/ether/migrate.go`: the OVM ETH balance
migration.  The Go source is shallowly embedded below: pure functions become
Lean functions, the concurrent worker/collector pipeline becomes a sequential
fold over the list of legacy storage entries in delivery order, and the
mutable `state.StateDB` becomes an explicit record of balance and storage
maps.  Machine integers are modelled as `Nat`/`Int` with explicit reduction
modulo `2 ^ 256` where the Go code truncates to a 32-byte hash.
-/

namespace Ether

/-- Addresses are modelled as natural numbers (20-byte values in Go). -/
abbrev Addr := Nat

/-- Derived storage keys of the legacy OVM ETH contract.  In Go a key is the
32-byte keccak image of either `abi.encode(addr, 1)` (a balance slot),
`abi.encode(from, to, 2)`-style data (an allowance slot), or a small raw slot
number (metadata slots).  Keccak collisions between these three families are
treated as impossible (the spec treats key-derivation collision freedom as a
precondition), so the key space is modelled as a sum. -/
inductive StorageKey where
  | bal (addr : Addr)
  | allow (fromAddr toAddr : Addr)
  | raw (n : Nat)
deriving DecidableEq

/-- The `BalanceSlot` ordinal from migrate.go. -/
def BalanceSlot : Nat := 1

/-- The `AllowanceSlot` ordinal from migrate.go. -/
def AllowanceSlot : Nat := 2

/-- Modelled from the spec: `CalcOVMETHStorageKey` (defined outside
migrate.go) deterministically derives the balance storage key of an
address; modelled as the injective `bal` constructor. -/
def CalcOVMETHStorageKey (addr : Addr) : StorageKey := StorageKey.bal addr

/-- Modelled from the spec: `CalcAllowanceStorageKey` (defined outside
migrate.go) deterministically derives the allowance storage key of an
(owner, spender) pair; modelled as the injective `allow` constructor. -/
def CalcAllowanceStorageKey (fromAddr toAddr : Addr) : StorageKey :=
  StorageKey.allow fromAddr toAddr

/-- The address `sequencerEntrypointAddr` from migrate.go, as a numeric address. -/
def sequencerEntrypointAddr : Addr := 0x4200000000000000000000000000000000000005

/-- The set `ignoredSlots` from migrate.go: raw metadata slots 2 (total supply),
3 (name), 4 (symbol), 5 and 6. -/
def ignoredSlots (k : StorageKey) : Bool :=
  match k with
  | StorageKey.raw 2 => true
  | StorageKey.raw 3 => true
  | StorageKey.raw 4 => true
  | StorageKey.raw 5 => true
  | StorageKey.raw 6 => true
  | _ => false

/-- Modelled from the spec: `getOVMETHTotalSupplySlot` (defined outside
migrate.go) returns raw slot 2, the legacy total-supply record. -/
def getOVMETHTotalSupplySlot : StorageKey := StorageKey.raw 2

/-! ## Keyspace partitioning (`PartitionKeyspace`) -/

/-- The constant `maxSlot` from migrate.go: the all-ones 32-byte key, as a natural. -/
def maxSlot : Nat := 2 ^ 256 - 1

/-- The per-partition size: `maxSlot.Big() / count`. -/
def partSize (count : Nat) : Nat := maxSlot / count

/-- Start key of partition `i`: `i * partSize`, truncated to 32 bytes by
`common.BigToHash`. -/
def partStart (i count : Nat) : Nat := i * partSize count % 2 ^ 256

/-- End key of partition `i`: the next partition's start for all but the
last partition, `maxSlot` for the last one. -/
def partEnd (i count : Nat) : Nat :=
  if i < count - 1 then (i + 1) * partSize count % 2 ^ 256 else maxSlot

/-- The function `PartitionKeyspace` from migrate.go.  The two `panic` branches are
modelled as `none`; the normal return is `some (start, end)`. -/
def PartitionKeyspace (i count : Int) : Option (Nat × Nat) :=
  if i < 0 ∨ count < 0 then none
  else if i > count - 1 then none
  else some (partStart i.toNat count.toNat, partEnd i.toNat count.toNat)

theorem partStart_eq (i count : Nat) (h : i ≤ count) :
    partStart i count = i * partSize count := by
  have h1 : i * partSize count ≤ count * partSize count :=
    Nat.mul_le_mul_right _ h
  have h2 : count * partSize count ≤ maxSlot := by
    rw [Nat.mul_comm]
    exact Nat.div_mul_le_self maxSlot count
  have h3 : maxSlot < 2 ^ 256 := by
    unfold maxSlot
    have : (0:Nat) < 2 ^ 256 := Nat.pos_pow_of_pos 256 (by omega)
    omega
  exact Nat.mod_eq_of_lt (by omega)

theorem partEnd_eq_of_lt (i count : Nat) (h : i < count - 1) :
    partEnd i count = (i + 1) * partSize count := by
  unfold partEnd
  rw [if_pos h]
  exact partStart_eq (i + 1) count (by omega)

theorem partEnd_last (count : Nat) :
    partEnd (count - 1) count = maxSlot := by
  unfold partEnd
  rw [if_neg (by omega)]

theorem partStart_le_partEnd (i count : Nat) (hi : i < count) :
    partStart i count ≤ partEnd i count := by
  rcases Nat.lt_or_ge i (count - 1) with h | h
  · rw [partStart_eq i count (by omega), partEnd_eq_of_lt i count h]
    exact Nat.mul_le_mul_right _ (by omega)
  · have : i = count - 1 := by omega
    subst this
    rw [partEnd_last, partStart_eq _ count (by omega)]
    calc (count - 1) * partSize count ≤ count * partSize count :=
          Nat.mul_le_mul_right _ (by omega)
      _ ≤ maxSlot := by
          rw [Nat.mul_comm]; exact Nat.div_mul_le_self maxSlot count

/-- Claim C1: For every `count ≥ 1` the inclusive partition ranges cover the
full key space with no gaps: partition 0 starts at the all-zero key, the
last partition ends at the all-ones maximum key, each partition's end
equals the next partition's start, every key up to `maxSlot` lies in some
partition, and any key common to two distinct partitions is exactly the
shared boundary (the lower partition's end, which is the higher one's
start). -/
theorem PartitionKeyspace_cover (count : Nat) (hc : 1 ≤ count) :
    partStart 0 count = 0
    ∧ partEnd (count - 1) count = maxSlot
    ∧ (∀ i, i + 1 < count → partEnd i count = partStart (i + 1) count)
    ∧ (∀ k, k ≤ maxSlot →
        ∃ i, i < count ∧ partStart i count ≤ k ∧ k ≤ partEnd i count)
    ∧ (∀ i j k, i < j → j < count →
        partStart i count ≤ k → k ≤ partEnd i count →
        partStart j count ≤ k → k ≤ partEnd j count →
        k = partEnd i count ∧ k = partStart j count) := by
  refine ⟨?_, partEnd_last count, ?_, ?_, ?_⟩
  · rw [partStart_eq 0 count (by omega)]; simp
  · intro i hi
    rw [partEnd_eq_of_lt i count (by omega),
      partStart_eq (i + 1) count (by omega)]
  · intro k hk
    rcases Nat.eq_zero_or_pos (partSize count) with hp | hp
    · refine ⟨count - 1, by omega, ?_, ?_⟩
      · rw [partStart_eq _ count (by omega), hp, Nat.mul_zero]
        exact Nat.zero_le k
      · rw [partEnd_last]; exact hk
    · refine ⟨min (k / partSize count) (count - 1), by omega, ?_, ?_⟩
      · rw [partStart_eq _ count (by omega)]
        calc min (k / partSize count) (count - 1) * partSize count
            ≤ k / partSize count * partSize count :=
              Nat.mul_le_mul_right _ (Nat.min_le_left _ _)
          _ ≤ k := Nat.div_mul_le_self k _
      · rcases Nat.lt_or_ge (min (k / partSize count) (count - 1))
          (count - 1) with h | h
        · have hmin : min (k / partSize count) (count - 1)
              = k / partSize count := by omega
          rw [partEnd_eq_of_lt _ count h, hmin]
          have hdm := Nat.div_add_mod k (partSize count)
          have hmlt := Nat.mod_lt k hp
          have : (k / partSize count + 1) * partSize count
              = partSize count * (k / partSize count) + partSize count := by
            ring
          omega
        · have : min (k / partSize count) (count - 1) = count - 1 := by omega
          rw [this, partEnd_last]; exact hk
  · intro i j k hij hj hsi hei hsj hej
    have hbound : partEnd i count = (i + 1) * partSize count :=
      partEnd_eq_of_lt i count (by omega)
    have hsj' : partStart j count = j * partSize count :=
      partStart_eq j count (by omega)
    have hchain : (i + 1) * partSize count ≤ j * partSize count :=
      Nat.mul_le_mul_right _ (by omega)
    constructor
    · omega
    · omega

/-- Witness for `PartitionKeyspace_cover` at `count = 64` (the worker count
used by `doMigration`). -/
theorem PartitionKeyspace_cover_witness :
    partStart 0 64 = 0 ∧ partEnd 63 64 = maxSlot := by
  have h := PartitionKeyspace_cover 64 (by norm_num)
  exact ⟨h.1, h.2.1⟩

/-- Claim C7: `PartitionKeyspace i count` panics (returns `none` in the
model) exactly when `i` is negative, `count` is negative, or `i ≥ count`;
for `0 ≤ i < count` it returns normally. -/
theorem PartitionKeyspace_panic_iff (i count : Int) :
    (PartitionKeyspace i count = none ↔ (i < 0 ∨ count < 0 ∨ count ≤ i))
    ∧ ((PartitionKeyspace i count).isSome = true ↔ (0 ≤ i ∧ i < count)) := by
  constructor
  · unfold PartitionKeyspace
    split
    · simp only [true_iff]
      omega
    · split
      · simp only [true_iff]
        omega
      · simp only [reduceCtorEq, false_iff]
        push_neg
        refine ⟨by omega, by omega, by omega⟩
  · unfold PartitionKeyspace
    split
    · simp only [Option.isSome_none, Bool.false_eq_true, false_iff]
      omega
    · split
      · simp only [Option.isSome_none, Bool.false_eq_true, false_iff]
        omega
      · simp only [Option.isSome_some, true_iff]
        omega

/-! ## State model

`state.StateDB` is modelled as the account balances plus the storage of the
legacy ERC20 ETH contract (the only contract whose storage migrate.go
touches).  `dbFactory` always reopens the committed pre-migration root, so
worker-side reads (`db.GetBalance`, `getOVMETHTotalSupply`) see the initial
state while the collector mutates `mutableDB`; the model therefore keeps
the initial `StateDB` around and threads the mutable one through the
collector. -/

structure StateDB where
  balances : Addr → Nat
  legacyStorage : StorageKey → Nat

/-- The mutation `StateDB.SetBalance`. -/
def setBalance (db : StateDB) (a : Addr) (v : Nat) : StateDB :=
  { db with balances := fun x => if x = a then v else db.balances x }

/-- The mutation `StateDB.SetState(predeploys.LegacyERC20ETHAddr, k, v)`. -/
def setLegacyState (db : StateDB) (k : StorageKey) (v : Nat) : StateDB :=
  { db with legacyStorage := fun x => if x = k then v else db.legacyStorage x }

/-- Modelled from the spec: `getOVMETHTotalSupply` (defined outside
migrate.go) reads the legacy total-supply record (raw slot 2). -/
def getOVMETHTotalSupply (db : StateDB) : Nat :=
  db.legacyStorage getOVMETHTotalSupplySlot

/-! ## Expectation index (`slotsAddrs` / `slotsInp`)

migrate.go keeps two Go maps, `slotsAddrs : key → address` and
`slotsInp : key → slot type`, which are inserted into in lockstep with the
same keys at every site, so they are modelled as a single association list
from key to (address, slot type).  Go map insertion overwrites, and the
list is built by consing with a first-match lookup, so the last insertion
for a key wins exactly as in Go. -/

abbrev SlotList := List (StorageKey × Addr × Nat)

/-- First-match lookup in the slots association list. -/
def lookupSlot : SlotList → StorageKey → Option (Addr × Nat)
  | [], _ => none
  | (k, a, t) :: rest, key =>
    if key = k then some (a, t) else lookupSlot rest key

/-- The index construction from the start of `doMigration`: one balance
entry per input address, one allowance entry per input allowance, and the
sequencer entrypoint added last as a balance entry. -/
def buildSlots (addresses : List Addr) (allowances : List (Addr × Addr)) :
    SlotList :=
  let m1 := addresses.foldl
    (fun m addr => (CalcOVMETHStorageKey addr, addr, BalanceSlot) :: m) []
  let m2 := allowances.foldl
    (fun m al => (CalcAllowanceStorageKey al.1 al.2, al.1, AllowanceSlot) :: m)
    m1
  (CalcOVMETHStorageKey sequencerEntrypointAddr,
    sequencerEntrypointAddr, BalanceSlot) :: m2

/-! ## Scan worker (`worker` in `doMigration`) -/

/-- The struct `accountData` from migrate.go. -/
structure AccountData where
  balance : Nat
  legacySlot : StorageKey
  address : Addr
deriving DecidableEq

/-- Result of the worker's per-entry processing: skip to the next entry,
emit a migration candidate on `outCh`, send an error on `errCh` in strict
mode, or terminate the process through `log.Crit`. -/
inductive StepResult where
  | skip
  | emit (a : AccountData)
  | fail (msg : String)
  | crash (msg : String)
deriving DecidableEq

/-- Human-readable rendering of a key, standing in for
`common.Hash.String()` in error messages. -/
def keyStr : StorageKey → String
  | StorageKey.bal a => "bal " ++ toString a
  | StorageKey.allow f t => "allow " ++ toString f ++ " " ++ toString t
  | StorageKey.raw n => "raw " ++ toString n

/-- The worker's loop body from migrate.go for one storage entry
`(key, value)` of the legacy trie, with `bal0` the balances read from the
worker's own `dbFactory` snapshot (the pre-migration state):

* empty values are skipped;
* ignored metadata slots are skipped;
* an unknown key is a classification error in strict mode; in relaxed mode
  it is logged, but the code then falls through to the `slotsAddrs` lookup,
  which fails for the same key (both maps always hold the same keys) and
  hits `log.Crit` — modelled as `crash`;
* a known key whose owning address already has a non-zero balance is an
  integrity error in strict mode (this runs before the slot-type switch,
  so it applies to allowance entries too);
* balance slots emit a candidate, allowance slots are skipped, and any
  other slot type is impossible for keys built by `buildSlots` (`log.Crit`
  in strict mode, a logged skip in relaxed mode). -/
def processEntry (slots : SlotList) (bal0 : Addr → Nat) (noCheck : Bool)
    (key : StorageKey) (value : Nat) : StepResult :=
  if value = 0 then StepResult.skip
  else if ignoredSlots key then StepResult.skip
  else
    match lookupSlot slots key with
    | none =>
      if noCheck then
        StepResult.crash "could not find address in map - should never happen"
      else
        StepResult.fail ("unknown storage slot in state: " ++ keyStr key)
    | some (addr, slotType) =>
      if bal0 addr ≠ 0 ∧ noCheck = false then
        StepResult.fail
          ("account has non-zero balance in state - should never happen: "
            ++ toString addr)
      else if slotType = BalanceSlot then
        StepResult.emit ⟨value, key, addr⟩
      else if slotType = AllowanceSlot then
        StepResult.skip
      else if noCheck then
        StepResult.skip
      else
        StepResult.crash "unknown slot type"

/-! ## Collector -/

/-- The collector's accumulated state: the dedup set `seenAccounts`, the
running migrated total `totalFound`, the processed-entry `count`, and the
mutable target store. -/
structure CollectorState where
  seenAccounts : List Addr
  totalFound : Int
  count : Nat
  db : StateDB

/-- One step of the collector goroutine for a candidate received on
`outCh`: duplicates are discarded; otherwise the balance is accumulated
and written, the legacy slot is cleared, and the address is marked seen. -/
def collectorStep (st : CollectorState) (account : AccountData) :
    CollectorState :=
  if account.address ∈ st.seenAccounts then st
  else
    { seenAccounts := account.address :: st.seenAccounts
      totalFound := st.totalFound + account.balance
      count := st.count + 1
      db := setLegacyState (setBalance st.db account.address account.balance)
        account.legacySlot 0 }

/-- The collector consuming a whole sequence of candidates. -/
def runCollector (st : CollectorState) (l : List AccountData) :
    CollectorState :=
  l.foldl collectorStep st

/-- A fatal outcome of the scan: an error sent on `errCh` (returned to the
caller) or a `log.Crit` process abort. -/
inductive Failure where
  | failErr (msg : String)
  | crashErr (msg : String)
deriving DecidableEq

/-- The scan-and-collect pipeline over the legacy entries in delivery
order: each entry is classified by `processEntry`; emitted candidates are
consumed by the collector; the first error or crash cancels the run with
the collector state reached so far. -/
def runEntries (slots : SlotList) (bal0 : Addr → Nat) (noCheck : Bool) :
    CollectorState → List (StorageKey × Nat) → CollectorState × Option Failure
  | st, [] => (st, none)
  | st, e :: rest =>
    match processEntry slots bal0 noCheck e.1 e.2 with
    | StepResult.skip => runEntries slots bal0 noCheck st rest
    | StepResult.emit a => runEntries slots bal0 noCheck (collectorStep st a) rest
    | StepResult.fail m => (st, some (Failure.failErr m))
    | StepResult.crash m => (st, some (Failure.crashErr m))

/-! ## Coordinator (`doMigration`, `MigrateBalances`) -/

/-- Outcome of a migration run: normal success, an error returned to the
caller, or a `log.Crit` process abort. -/
inductive Outcome where
  | ok
  | err (msg : String)
  | crash (msg : String)
deriving DecidableEq

/-- Whether the outcome is an error returned to the caller. -/
def Outcome.isErr : Outcome → Bool
  | Outcome.err _ => true
  | _ => false

/-- The observable result of a run: the target store as left by the run,
the processed count, the migrated total, and the outcome. -/
structure MigResult where
  db : StateDB
  count : Nat
  totalFound : Int
  outcome : Outcome

/-- The function `doMigration` from migrate.go: build the expectation index, scan the
legacy entries (in the given delivery order) feeding the collector, then
on a clean scan read the recorded total supply from a fresh snapshot of
the pre-migration state, compare `supply − migrated` with the expected
delta (fatal on mismatch only in strict mode), and finally zero the legacy
total-supply record. -/
def doMigration (mutableDB : StateDB) (entries : List (StorageKey × Nat))
    (addresses : List Addr) (allowances : List (Addr × Addr))
    (expDiff : Int) (noCheck : Bool) : MigResult :=
  match runEntries (buildSlots addresses allowances) mutableDB.balances noCheck
      ⟨[], 0, 0, mutableDB⟩ entries with
  | (st, some (Failure.failErr m)) =>
    ⟨st.db, st.count, st.totalFound, Outcome.err m⟩
  | (st, some (Failure.crashErr m)) =>
    ⟨st.db, st.count, st.totalFound, Outcome.crash m⟩
  | (st, none) =>
    if (getOVMETHTotalSupply mutableDB : Int) - st.totalFound ≠ expDiff
        ∧ noCheck = false then
      ⟨st.db, st.count, st.totalFound,
        Outcome.err ("supply mismatch: "
          ++ toString ((getOVMETHTotalSupply mutableDB : Int) - st.totalFound))⟩
    else
      ⟨setLegacyState st.db getOVMETHTotalSupplySlot 0,
        st.count, st.totalFound, Outcome.ok⟩

/-- First-match lookup in the chain-parameter table, modelling indexing
into the Go map `crossdomain.ParamsByChainID`. -/
def lookupParams : List (Int × Int) → Int → Option Int
  | [], _ => none
  | (c, d) :: rest, chainID =>
    if chainID = c then some d else lookupParams rest chainID

/-- The function `MigrateBalances` from migrate.go.  The table
`crossdomain.ParamsByChainID` is defined outside migrate.go; modelled from
the spec as an explicit per-network table mapping a chain id to its
expected supply delta.  A missing entry aborts before any scanning. -/
def MigrateBalances (paramsByChainID : List (Int × Int))
    (mutableDB : StateDB) (entries : List (StorageKey × Nat))
    (addresses : List Addr) (allowances : List (Addr × Addr))
    (chainID : Int) (noCheck : Bool) : MigResult :=
  match lookupParams paramsByChainID chainID with
  | none =>
    ⟨mutableDB, 0, 0, Outcome.err ("no chain params for " ++ toString chainID)⟩
  | some expDiff =>
    doMigration mutableDB entries addresses allowances expDiff noCheck

/-! ## Configuration errors (C8) and the conservation check (C2) -/

/-- Claim C8: If the chain-parameter table has no entry for the requested
chain id, `MigrateBalances` returns the configuration error before any
scanning or migration, in either mode, and the target store is returned
unchanged (count and total are still zero). -/
theorem MigrateBalances_no_params (ps : List (Int × Int)) (db0 : StateDB)
    (entries : List (StorageKey × Nat)) (addresses : List Addr)
    (allowances : List (Addr × Addr)) (chainID : Int) (noCheck : Bool)
    (h : lookupParams ps chainID = none) :
    MigrateBalances ps db0 entries addresses allowances chainID noCheck
      = ⟨db0, 0, 0, Outcome.err ("no chain params for " ++ toString chainID)⟩ := by
  unfold MigrateBalances
  rw [h]

/-- Witness for `MigrateBalances_no_params`: the empty table has no entry
for chain id 5. -/
theorem MigrateBalances_no_params_witness :
    MigrateBalances [] ⟨fun _ => 0, fun _ => 0⟩ [] [] [] 5 false
      = ⟨⟨fun _ => 0, fun _ => 0⟩, 0, 0,
          Outcome.err ("no chain params for " ++ toString (5 : Int))⟩ :=
  MigrateBalances_no_params [] ⟨fun _ => 0, fun _ => 0⟩ [] [] [] 5 false rfl

/-- Claim C2: In strict mode, whenever the scan phase finishes without a
fatal error with migrated total `M = st.totalFound`, the run succeeds iff
`S − M = D` where `S` is the recorded total supply and `D` the expected
delta; any other relation yields the conservation error, whose message
starts with "supply mismatch". -/
theorem doMigration_conservation (db0 : StateDB)
    (entries : List (StorageKey × Nat)) (addresses : List Addr)
    (allowances : List (Addr × Addr)) (expDiff : Int) (st : CollectorState)
    (h : runEntries (buildSlots addresses allowances) db0.balances false
        ⟨[], 0, 0, db0⟩ entries = (st, none)) :
    ((doMigration db0 entries addresses allowances expDiff false).outcome
        = Outcome.ok
      ↔ (getOVMETHTotalSupply db0 : Int) - st.totalFound = expDiff)
    ∧ ((getOVMETHTotalSupply db0 : Int) - st.totalFound ≠ expDiff →
        (doMigration db0 entries addresses allowances expDiff false).outcome
          = Outcome.err ("supply mismatch: "
              ++ toString ((getOVMETHTotalSupply db0 : Int)
                - st.totalFound))) := by
  unfold doMigration
  rw [h]
  dsimp only
  by_cases hd : (getOVMETHTotalSupply db0 : Int) - st.totalFound = expDiff
  · rw [if_neg (by simp [hd])]
    simp [hd]
  · rw [if_pos ⟨hd, rfl⟩]
    simp [hd]

/-- Witness for `doMigration_conservation`: the empty scan with an all-zero
store satisfies the hypothesis, and the run succeeds with delta 0. -/
theorem doMigration_conservation_witness :
    ((doMigration ⟨fun _ => 0, fun _ => 0⟩ [] [] [] 0 false).outcome
        = Outcome.ok
      ↔ (getOVMETHTotalSupply ⟨fun _ => 0, fun _ => 0⟩ : Int)
          - (⟨[], 0, 0, ⟨fun _ => 0, fun _ => 0⟩⟩ : CollectorState).totalFound
            = 0) :=
  (doMigration_conservation ⟨fun _ => 0, fun _ => 0⟩ [] [] [] 0
    ⟨[], 0, 0, ⟨fun _ => 0, fun _ => 0⟩⟩ rfl).1

/-! ## The relaxed-mode unknown-slot crash (C3) -/

/-- Claim C3: Evaluation of the code at the failing input: in relaxed mode a
non-empty, non-ignored entry whose key is absent from the expectation
index is *not* skipped with a warning — after logging, the code falls
through to the `slotsAddrs` lookup, which fails for the same key, and
`log.Crit` aborts the process. -/
theorem doMigration_unknown_slot_crash :
    (doMigration ⟨fun _ => 0, fun k => if k = StorageKey.bal 99 then 5 else 0⟩
        [(StorageKey.bal 99, 5)] [] [] 0 true).outcome
      = Outcome.crash "could not find address in map - should never happen" := by
  decide

/-! ## Computation lemmas for `processEntry` -/

theorem processEntry_zero (slots : SlotList) (bal0 : Addr → Nat)
    (noCheck : Bool) (k : StorageKey) :
    processEntry slots bal0 noCheck k 0 = StepResult.skip := by
  unfold processEntry
  rw [if_pos rfl]

theorem processEntry_ignored (slots : SlotList) (bal0 : Addr → Nat)
    (noCheck : Bool) (k : StorageKey) (v : Nat) (hv : v ≠ 0)
    (hig : ignoredSlots k = true) :
    processEntry slots bal0 noCheck k v = StepResult.skip := by
  unfold processEntry
  rw [if_neg hv, if_pos hig]

theorem processEntry_unknown (slots : SlotList) (bal0 : Addr → Nat)
    (noCheck : Bool) (k : StorageKey) (v : Nat) (hv : v ≠ 0)
    (hig : ignoredSlots k = false) (hl : lookupSlot slots k = none) :
    processEntry slots bal0 noCheck k v
      = if noCheck then
          StepResult.crash "could not find address in map - should never happen"
        else
          StepResult.fail ("unknown storage slot in state: " ++ keyStr k) := by
  unfold processEntry
  rw [if_neg hv, if_neg (by simp [hig]), hl]

theorem processEntry_known (slots : SlotList) (bal0 : Addr → Nat)
    (noCheck : Bool) (k : StorageKey) (v : Nat) (addr : Addr) (t : Nat)
    (hv : v ≠ 0) (hig : ignoredSlots k = false)
    (hl : lookupSlot slots k = some (addr, t)) :
    processEntry slots bal0 noCheck k v
      = if bal0 addr ≠ 0 ∧ noCheck = false then
          StepResult.fail
            ("account has non-zero balance in state - should never happen: "
              ++ toString addr)
        else if t = BalanceSlot then
          StepResult.emit ⟨v, k, addr⟩
        else if t = AllowanceSlot then
          StepResult.skip
        else if noCheck then
          StepResult.skip
        else
          StepResult.crash "unknown slot type" := by
  unfold processEntry
  rw [if_neg hv, if_neg (by simp [hig]), hl]

/-! ## Relaxed mode never returns an error (C9) -/

theorem processEntry_relaxed_no_fail (slots : SlotList) (bal0 : Addr → Nat)
    (k : StorageKey) (v : Nat) (m : String) :
    processEntry slots bal0 true k v ≠ StepResult.fail m := by
  by_cases hv : v = 0
  · subst hv
    rw [processEntry_zero]
    simp
  · by_cases hig : ignoredSlots k = true
    · rw [processEntry_ignored slots bal0 true k v hv hig]
      simp
    · have hig' : ignoredSlots k = false := by simpa using hig
      rcases hl : lookupSlot slots k with _ | ⟨addr, t⟩
      · rw [processEntry_unknown slots bal0 true k v hv hig' hl]
        simp
      · rw [processEntry_known slots bal0 true k v addr t hv hig' hl]
        rw [if_neg (by simp)]
        split
        · simp
        · split
          · simp
          · simp

theorem runEntries_relaxed_no_fail (slots : SlotList) (bal0 : Addr → Nat)
    (es : List (StorageKey × Nat)) : ∀ st m,
    (runEntries slots bal0 true st es).2 ≠ some (Failure.failErr m) := by
  induction es with
  | nil => intro st m; simp [runEntries]
  | cons e rest ih =>
    intro st m
    rcases hp : processEntry slots bal0 true e.1 e.2 with _ | c | m' | m'
    · rw [runEntries, hp]; exact ih st m
    · rw [runEntries, hp]; exact ih _ m
    · exact absurd hp (processEntry_relaxed_no_fail slots bal0 e.1 e.2 m')
    · rw [runEntries, hp]; simp

/-- Claim C9: In relaxed mode every classification, integrity and
conservation error is suppressed, so a relaxed-mode run that terminates
normally never returns an error to the caller (a `log.Crit` abort is not a
returned error). -/
theorem doMigration_relaxed_no_err (db0 : StateDB)
    (entries : List (StorageKey × Nat)) (addresses : List Addr)
    (allowances : List (Addr × Addr)) (expDiff : Int) :
    ((doMigration db0 entries addresses allowances expDiff true).outcome).isErr
      = false := by
  unfold doMigration
  rcases hrun : runEntries (buildSlots addresses allowances) db0.balances true
      ⟨[], 0, 0, db0⟩ entries with ⟨st, _ | (m | m)⟩
  · dsimp only
    rw [if_neg (by simp)]
    rfl
  · exact absurd (by rw [hrun])
      (runEntries_relaxed_no_fail (buildSlots addresses allowances)
        db0.balances entries ⟨[], 0, 0, db0⟩ m)
  · rfl

/-! ## Collector deduplication (C4, C10) -/

/-- The subsequence of candidates that are first deliveries for their
address, relative to an already-seen address set: exactly the candidates
the collector applies. -/
def firstOcc : List Addr → List AccountData → List AccountData
  | _, [] => []
  | seen, a :: rest =>
    if a.address ∈ seen then firstOcc seen rest
    else a :: firstOcc (a.address :: seen) rest

theorem collectorStep_of_mem (st : CollectorState) (a : AccountData)
    (h : a.address ∈ st.seenAccounts) : collectorStep st a = st := by
  unfold collectorStep
  rw [if_pos h]

theorem collectorStep_seen_of_not_mem (st : CollectorState) (a : AccountData)
    (h : a.address ∉ st.seenAccounts) :
    (collectorStep st a).seenAccounts = a.address :: st.seenAccounts := by
  unfold collectorStep
  rw [if_neg h]

theorem runCollector_firstOcc (l : List AccountData) : ∀ st : CollectorState,
    runCollector st l = runCollector st (firstOcc st.seenAccounts l) := by
  induction l with
  | nil => intro st; rfl
  | cons a rest ih =>
    intro st
    by_cases h : a.address ∈ st.seenAccounts
    · rw [firstOcc, if_pos h]
      show runCollector (collectorStep st a) rest = _
      rw [collectorStep_of_mem st a h]
      exact ih st
    · rw [firstOcc, if_neg h]
      show runCollector (collectorStep st a) rest
        = runCollector (collectorStep st a) (firstOcc (a.address :: st.seenAccounts) rest)
      rw [← collectorStep_seen_of_not_mem st a h]
      exact ih (collectorStep st a)

/-- Claim C4: A candidate whose address was already seen leaves the collector
state — balances, migrated total, processed count, everything — unchanged,
and consuming any candidate sequence is the same as consuming only the
first-delivered candidate of each address: each address's balance is
applied exactly once. -/
theorem collector_dedup (st : CollectorState) (a : AccountData)
    (l : List AccountData) (h : a.address ∈ st.seenAccounts) :
    collectorStep st a = st
    ∧ runCollector st l = runCollector st (firstOcc st.seenAccounts l) :=
  ⟨collectorStep_of_mem st a h, runCollector_firstOcc l st⟩

theorem collectorStep_count_of_not_mem (st : CollectorState) (a : AccountData)
    (h : a.address ∉ st.seenAccounts) :
    (collectorStep st a).count = st.count + 1 := by
  unfold collectorStep
  rw [if_neg h]

theorem collectorStep_total_of_not_mem (st : CollectorState) (a : AccountData)
    (h : a.address ∉ st.seenAccounts) :
    (collectorStep st a).totalFound = st.totalFound + a.balance := by
  unfold collectorStep
  rw [if_neg h]

theorem runCollector_counts (l : List AccountData) : ∀ st : CollectorState,
    (runCollector st l).count = st.count + (firstOcc st.seenAccounts l).length
    ∧ (runCollector st l).totalFound
        = st.totalFound
          + ((firstOcc st.seenAccounts l).map (fun a => (a.balance : Int))).sum
    ∧ (runCollector st l).seenAccounts.length
        = st.seenAccounts.length + (firstOcc st.seenAccounts l).length := by
  induction l with
  | nil => intro st; simp [runCollector, firstOcc]
  | cons a rest ih =>
    intro st
    have hstep : runCollector st (a :: rest)
        = runCollector (collectorStep st a) rest := rfl
    by_cases h : a.address ∈ st.seenAccounts
    · rw [firstOcc, if_pos h, hstep, collectorStep_of_mem st a h]
      exact ih st
    · rw [firstOcc, if_neg h, hstep]
      have h1 := ih (collectorStep st a)
      rw [collectorStep_seen_of_not_mem st a h,
        collectorStep_count_of_not_mem st a h,
        collectorStep_total_of_not_mem st a h] at h1
      refine ⟨?_, ?_, ?_⟩
      · rw [h1.1]; simp; omega
      · rw [h1.2.1]; simp; ring
      · rw [h1.2.2]; simp; omega

theorem runCollector_nodup (l : List AccountData) : ∀ st : CollectorState,
    st.seenAccounts.Nodup → (runCollector st l).seenAccounts.Nodup := by
  induction l with
  | nil => intro st h; exact h
  | cons a rest ih =>
    intro st h
    have hstep : runCollector st (a :: rest)
        = runCollector (collectorStep st a) rest := rfl
    rw [hstep]
    by_cases hm : a.address ∈ st.seenAccounts
    · rw [collectorStep_of_mem st a hm]; exact ih st h
    · refine ih (collectorStep st a) ?_
      rw [collectorStep_seen_of_not_mem st a hm]
      exact List.Nodup.cons hm h

/-- Claim C10: After consuming any sequence of candidates from the initial
collector state, the processed count equals the number of distinct seen
addresses (the seen set never holds duplicates), and the migrated total is
the sum of the balances of the first-delivered candidate of each seen
address. -/
theorem collector_invariant (db : StateDB) (l : List AccountData) :
    (runCollector ⟨[], 0, 0, db⟩ l).count
        = (runCollector ⟨[], 0, 0, db⟩ l).seenAccounts.length
    ∧ (runCollector ⟨[], 0, 0, db⟩ l).seenAccounts.Nodup
    ∧ (runCollector ⟨[], 0, 0, db⟩ l).totalFound
        = ((firstOcc [] l).map (fun a => (a.balance : Int))).sum := by
  have h := runCollector_counts l ⟨[], 0, 0, db⟩
  refine ⟨?_, runCollector_nodup l ⟨[], 0, 0, db⟩ (by simp), ?_⟩
  · rw [h.1, h.2.2]
    rfl
  · rw [h.2.1]
    simp

/-! ## Shape of the expectation index -/

theorem mem_foldl_cons {α β : Type _} (g : α → β) (l : List α) :
    ∀ (init : List β) (x : β),
    x ∈ l.foldl (fun m y => g y :: m) init ↔ x ∈ init ∨ ∃ y ∈ l, x = g y := by
  induction l with
  | nil => intro init x; simp
  | cons a rest ih =>
    intro init x
    rw [List.foldl_cons, ih]
    simp only [List.mem_cons, List.mem_singleton]
    constructor
    · rintro ((h | h) | h)
      · exact Or.inr ⟨a, Or.inl rfl, h⟩
      · exact Or.inl h
      · rcases h with ⟨y, hy, hxy⟩
        exact Or.inr ⟨y, Or.inr hy, hxy⟩
    · rintro (h | ⟨y, hy | hy, hxy⟩)
      · exact Or.inl (Or.inr h)
      · subst hy; exact Or.inl (Or.inl hxy)
      · exact Or.inr ⟨y, hy, hxy⟩

theorem mem_buildSlots (addresses : List Addr) (allowances : List (Addr × Addr))
    (x : StorageKey × Addr × Nat) (hx : x ∈ buildSlots addresses allowances) :
    (∃ a, x = (StorageKey.bal a, a, BalanceSlot))
    ∨ (∃ f t, x = (StorageKey.allow f t, f, AllowanceSlot)) := by
  dsimp only [buildSlots] at hx
  rcases List.mem_cons.mp hx with h | h
  · exact Or.inl ⟨sequencerEntrypointAddr, h⟩
  · rcases (mem_foldl_cons
        (fun al : Addr × Addr =>
          (CalcAllowanceStorageKey al.1 al.2, al.1, AllowanceSlot))
        allowances _ x).mp h with h2 | ⟨y, _, hxy⟩
    · rcases (mem_foldl_cons
          (fun addr : Addr => (CalcOVMETHStorageKey addr, addr, BalanceSlot))
          addresses _ x).mp h2 with h3 | ⟨y, _, hxy⟩
      · simp at h3
      · exact Or.inl ⟨y, hxy⟩
    · exact Or.inr ⟨y.1, y.2, hxy⟩

theorem lookupSlot_mem : ∀ (m : SlotList) (k : StorageKey) (p : Addr × Nat),
    lookupSlot m k = some p → (k, p.1, p.2) ∈ m := by
  intro m
  induction m with
  | nil => intro k p h; simp [lookupSlot] at h
  | cons e rest ih =>
    intro k p h
    rcases e with ⟨k', a, t⟩
    rw [lookupSlot] at h
    by_cases hk : k = k'
    · rw [if_pos hk] at h
      injection h with h
      subst h
      subst hk
      exact List.mem_cons_self _ _
    · rw [if_neg hk] at h
      exact List.mem_cons_of_mem _ (ih k p h)

theorem buildSlots_bal_key (addresses : List Addr)
    (allowances : List (Addr × Addr)) (k : StorageKey) (a : Addr) (t : Nat)
    (h : lookupSlot (buildSlots addresses allowances) k = some (a, t))
    (ht : t = BalanceSlot) : k = StorageKey.bal a := by
  have hm := lookupSlot_mem _ k (a, t) h
  rcases mem_buildSlots addresses allowances _ hm with ⟨b, hb⟩ | ⟨f, s, hf⟩
  · simp only [Prod.mk.injEq] at hb
    rw [hb.1, hb.2.1]
  · simp only [Prod.mk.injEq] at hf
    rw [ht] at hf
    exact absurd hf.2.2 (by simp [BalanceSlot, AllowanceSlot])

theorem buildSlots_lookup_bal (addresses : List Addr)
    (allowances : List (Addr × Addr)) (a : Addr) (p : Addr × Nat)
    (h : lookupSlot (buildSlots addresses allowances) (StorageKey.bal a)
        = some p) : p = (a, BalanceSlot) := by
  rcases p with ⟨p1, p2⟩
  have hm := lookupSlot_mem _ _ (p1, p2) h
  dsimp only at hm
  rcases mem_buildSlots addresses allowances _ hm with ⟨b, hb⟩ | ⟨f, s, hf⟩
  · simp only [Prod.mk.injEq, StorageKey.bal.injEq] at hb
    simp only [Prod.mk.injEq]
    exact ⟨by rw [hb.2.1, ← hb.1], hb.2.2⟩
  · simp only [Prod.mk.injEq] at hf
    exact absurd hf.1 (by simp)

/-! ## Inversion for emitted candidates -/

theorem processEntry_emit_inv (slots : SlotList) (bal0 : Addr → Nat)
    (noCheck : Bool) (k : StorageKey) (v : Nat) (c : AccountData)
    (h : processEntry slots bal0 noCheck k v = StepResult.emit c) :
    c.balance = v ∧ c.legacySlot = k
    ∧ lookupSlot slots k = some (c.address, BalanceSlot)
    ∧ v ≠ 0 ∧ ignoredSlots k = false := by
  by_cases hv : v = 0
  · subst hv
    rw [processEntry_zero] at h
    cases h
  · by_cases hig : ignoredSlots k = true
    · rw [processEntry_ignored slots bal0 noCheck k v hv hig] at h
      cases h
    · have hig' : ignoredSlots k = false := by simpa using hig
      rcases hl : lookupSlot slots k with _ | ⟨addr, t⟩
      · rw [processEntry_unknown slots bal0 noCheck k v hv hig' hl] at h
        split at h <;> cases h
      · rw [processEntry_known slots bal0 noCheck k v addr t hv hig' hl] at h
        split at h
        · cases h
        · split at h
          · rename_i hbt
            cases h
            exact ⟨rfl, rfl, by rw [hbt], hv, hig'⟩
          · split at h
            · cases h
            · split at h <;> cases h

/-! ## Scan invariants -/

theorem collectorStep_storage_ne (st : CollectorState) (a : AccountData)
    (k : StorageKey) (hk : k ≠ a.legacySlot) :
    (collectorStep st a).db.legacyStorage k = st.db.legacyStorage k := by
  unfold collectorStep
  split
  · rfl
  · simp [setLegacyState, setBalance, hk]

theorem collectorStep_storage_zero (st : CollectorState) (a : AccountData)
    (k : StorageKey) (h : st.db.legacyStorage k = 0) :
    (collectorStep st a).db.legacyStorage k = 0 := by
  unfold collectorStep
  split
  · exact h
  · by_cases hk : k = a.legacySlot <;> simp [setLegacyState, setBalance, hk, h]

theorem collectorStep_balances_ne (st : CollectorState) (a : AccountData)
    (x : Addr) (hx : x ≠ a.address) :
    (collectorStep st a).db.balances x = st.db.balances x := by
  unfold collectorStep
  split
  · rfl
  · simp [setLegacyState, setBalance, hx]

theorem collectorStep_balances_self (st : CollectorState) (a : AccountData)
    (h : a.address ∉ st.seenAccounts) :
    (collectorStep st a).db.balances a.address = a.balance := by
  unfold collectorStep
  rw [if_neg h]
  simp [setLegacyState, setBalance]

theorem collectorStep_storage_self (st : CollectorState) (a : AccountData)
    (h : a.address ∉ st.seenAccounts) :
    (collectorStep st a).db.legacyStorage a.legacySlot = 0 := by
  unfold collectorStep
  rw [if_neg h]
  simp [setLegacyState, setBalance]

theorem runEntries_seen_mono (slots : SlotList) (bal0 : Addr → Nat)
    (noCheck : Bool) : ∀ (es : List (StorageKey × Nat)) (st : CollectorState)
    (x : Addr), x ∈ st.seenAccounts →
    x ∈ (runEntries slots bal0 noCheck st es).1.seenAccounts := by
  intro es
  induction es with
  | nil => intro st x hx; exact hx
  | cons e rest ih =>
    intro st x hx
    rcases hp : processEntry slots bal0 noCheck e.1 e.2 with _ | c | m | m
    · rw [runEntries, hp]; exact ih st x hx
    · rw [runEntries, hp]
      refine ih _ x ?_
      by_cases hm : c.address ∈ st.seenAccounts
      · rw [collectorStep_of_mem st c hm]; exact hx
      · rw [collectorStep_seen_of_not_mem st c hm]
        exact List.mem_cons_of_mem _ hx
    · rw [runEntries, hp]; exact hx
    · rw [runEntries, hp]; exact hx

theorem runEntries_storage_zero_stable (slots : SlotList) (bal0 : Addr → Nat)
    (noCheck : Bool) : ∀ (es : List (StorageKey × Nat)) (st : CollectorState)
    (k : StorageKey), st.db.legacyStorage k = 0 →
    (runEntries slots bal0 noCheck st es).1.db.legacyStorage k = 0 := by
  intro es
  induction es with
  | nil => intro st k h; exact h
  | cons e rest ih =>
    intro st k h
    rcases hp : processEntry slots bal0 noCheck e.1 e.2 with _ | c | m | m
    · rw [runEntries, hp]; exact ih st k h
    · rw [runEntries, hp]
      exact ih _ k (collectorStep_storage_zero st c k h)
    · rw [runEntries, hp]; exact h
    · rw [runEntries, hp]; exact h

theorem runEntries_storage_nonbal (slots : SlotList) (bal0 : Addr → Nat)
    (noCheck : Bool)
    (Hb : ∀ (k : StorageKey) (a : Addr) (t : Nat),
      lookupSlot slots k = some (a, t) → t = BalanceSlot
        → k = StorageKey.bal a) :
    ∀ (es : List (StorageKey × Nat)) (st : CollectorState) (k : StorageKey),
    (∀ a, k ≠ StorageKey.bal a) →
    (runEntries slots bal0 noCheck st es).1.db.legacyStorage k
      = st.db.legacyStorage k := by
  intro es
  induction es with
  | nil => intro st k _; rfl
  | cons e rest ih =>
    intro st k hk
    rcases hp : processEntry slots bal0 noCheck e.1 e.2 with _ | c | m | m
    · rw [runEntries, hp]; exact ih st k hk
    · rw [runEntries, hp]
      have hinv := processEntry_emit_inv slots bal0 noCheck e.1 e.2 c hp
      have hslot : c.legacySlot = StorageKey.bal c.address := by
        rw [hinv.2.1]
        exact Hb e.1 c.address BalanceSlot hinv.2.2.1 rfl
      rw [ih _ k hk, collectorStep_storage_ne st c k (by rw [hslot]; exact hk _)]
    · rw [runEntries, hp]
    · rw [runEntries, hp]

theorem runEntries_seen_bal_stable (slots : SlotList) (bal0 : Addr → Nat)
    (noCheck : Bool) : ∀ (es : List (StorageKey × Nat)) (st : CollectorState)
    (x : Addr), x ∈ st.seenAccounts →
    (runEntries slots bal0 noCheck st es).1.db.balances x
      = st.db.balances x := by
  intro es
  induction es with
  | nil => intro st x _; rfl
  | cons e rest ih =>
    intro st x hx
    rcases hp : processEntry slots bal0 noCheck e.1 e.2 with _ | c | m | m
    · rw [runEntries, hp]; exact ih st x hx
    · rw [runEntries, hp]
      dsimp only
      by_cases hm : c.address ∈ st.seenAccounts
      · rw [collectorStep_of_mem st c hm]
        exact ih st x hx
      · have hxc : x ≠ c.address := fun hxc => hm (hxc ▸ hx)
        have hx1 : x ∈ (collectorStep st c).seenAccounts := by
          rw [collectorStep_seen_of_not_mem st c hm]
          exact List.mem_cons_of_mem _ hx
        rw [ih _ x hx1, collectorStep_balances_ne st c x hxc]
    · rw [runEntries, hp]
    · rw [runEntries, hp]

theorem collectorStep_seen_inv (st : CollectorState) (c : AccountData)
    (hslot : c.legacySlot = StorageKey.bal c.address)
    (h : ∀ b ∈ st.seenAccounts, st.db.legacyStorage (StorageKey.bal b) = 0) :
    ∀ b ∈ (collectorStep st c).seenAccounts,
      (collectorStep st c).db.legacyStorage (StorageKey.bal b) = 0 := by
  intro b hb
  by_cases hm : c.address ∈ st.seenAccounts
  · rw [collectorStep_of_mem st c hm] at hb ⊢
    exact h b hb
  · rw [collectorStep_seen_of_not_mem st c hm] at hb
    rcases List.mem_cons.mp hb with hb | hb
    · subst hb
      rw [← hslot]
      exact collectorStep_storage_self st c hm
    · by_cases hk : StorageKey.bal b = c.legacySlot
      · rw [hk]
        exact collectorStep_storage_self st c hm
      · rw [collectorStep_storage_ne st c _ hk]
        exact h b hb

theorem runEntries_success_no_failentry (slots : SlotList) (bal0 : Addr → Nat)
    (noCheck : Bool) : ∀ (es : List (StorageKey × Nat)) (st : CollectorState),
    (runEntries slots bal0 noCheck st es).2 = none →
    ∀ e ∈ es,
      (∀ m, processEntry slots bal0 noCheck e.1 e.2 ≠ StepResult.fail m)
      ∧ (∀ m, processEntry slots bal0 noCheck e.1 e.2 ≠ StepResult.crash m) := by
  intro es
  induction es with
  | nil => intro st _ e he; simp at he
  | cons e0 rest ih =>
    intro st hs e he
    rcases hp : processEntry slots bal0 noCheck e0.1 e0.2 with _ | c | m | m
    · rw [runEntries, hp] at hs
      rcases List.mem_cons.mp he with he | he
      · subst he
        refine ⟨fun m hm => ?_, fun m hm => ?_⟩ <;> rw [hp] at hm <;> cases hm
      · exact ih st hs e he
    · rw [runEntries, hp] at hs
      rcases List.mem_cons.mp he with he | he
      · subst he
        refine ⟨fun m hm => ?_, fun m hm => ?_⟩ <;> rw [hp] at hm <;> cases hm
      · exact ih _ hs e he
    · rw [runEntries, hp] at hs
      dsimp only at hs
      cases hs
    · rw [runEntries, hp] at hs
      dsimp only at hs
      cases hs

/-- Main invariant of a clean scan: every non-empty, non-ignored entry
classified as a balance slot ends with its address seen, its legacy slot
cleared, and (if the address was not seen before the scan) the target
balance set to the value of some delivered entry for the same key. -/
theorem runEntries_success_spec (slots : SlotList) (bal0 : Addr → Nat)
    (noCheck : Bool)
    (Hb : ∀ (k : StorageKey) (a : Addr) (t : Nat),
      lookupSlot slots k = some (a, t) → t = BalanceSlot
        → k = StorageKey.bal a) :
    ∀ (es : List (StorageKey × Nat)) (st : CollectorState),
    (∀ b ∈ st.seenAccounts, st.db.legacyStorage (StorageKey.bal b) = 0) →
    (runEntries slots bal0 noCheck st es).2 = none →
    ∀ (k : StorageKey) (v : Nat) (a : Addr), (k, v) ∈ es → v ≠ 0 →
      ignoredSlots k = false →
      lookupSlot slots k = some (a, BalanceSlot) →
      a ∈ (runEntries slots bal0 noCheck st es).1.seenAccounts
      ∧ (runEntries slots bal0 noCheck st es).1.db.legacyStorage
          (StorageKey.bal a) = 0
      ∧ (a ∉ st.seenAccounts →
          ∃ v', (runEntries slots bal0 noCheck st es).1.db.balances a = v'
            ∧ (StorageKey.bal a, v') ∈ es ∧ v' ≠ 0) := by
  intro es
  induction es with
  | nil => intro st _ _ k v a hmem; simp at hmem
  | cons e0 rest ih =>
    intro st hseen hs k v a hmem hv hig hl
    rcases hp : processEntry slots bal0 noCheck e0.1 e0.2 with _ | c | m | m
    · -- skip
      rw [runEntries, hp] at hs ⊢
      rcases List.mem_cons.mp hmem with he | he
      · exfalso
        have hk : e0.1 = k := by rw [← he]
        have hv2 : e0.2 = v := by rw [← he]
        rw [processEntry_known slots bal0 noCheck e0.1 e0.2 a BalanceSlot
          (by rw [hv2]; exact hv) (by rw [hk]; exact hig)
          (by rw [hk]; exact hl)] at hp
        split at hp
        · cases hp
        · rw [if_pos rfl] at hp
          cases hp
      · have h2 := ih st hseen hs k v a he hv hig hl
        refine ⟨h2.1, h2.2.1, fun hna => ?_⟩
        rcases h2.2.2 hna with ⟨v', hb, hm3, hv'⟩
        exact ⟨v', hb, List.mem_cons_of_mem _ hm3, hv'⟩
    · -- emit c
      rw [runEntries, hp] at hs ⊢
      dsimp only at hs ⊢
      have hinv := processEntry_emit_inv slots bal0 noCheck e0.1 e0.2 c hp
      have hkey : e0.1 = StorageKey.bal c.address :=
        Hb e0.1 c.address BalanceSlot hinv.2.2.1 rfl
      have hslot : c.legacySlot = StorageKey.bal c.address := by
        rw [hinv.2.1, hkey]
      have hseen1 := collectorStep_seen_inv st c hslot hseen
      have hcseen : c.address ∈ (collectorStep st c).seenAccounts := by
        by_cases hm2 : c.address ∈ st.seenAccounts
        · rw [collectorStep_of_mem st c hm2]; exact hm2
        · rw [collectorStep_seen_of_not_mem st c hm2]
          exact List.mem_cons_self _ _
      have he0eq : e0 = (StorageKey.bal c.address, c.balance) := by
        rcases e0 with ⟨k0, v0⟩
        simp only [Prod.mk.injEq]
        exact ⟨hkey, hinv.1.symm⟩
      rcases List.mem_cons.mp hmem with he | he
      · -- head entry: its address is c.address
        have hk : e0.1 = k := by rw [← he]
        have ha : a = c.address := by
          have hll := hinv.2.2.1
          rw [hk] at hll
          rw [hll] at hl
          injection hl with hl2
          exact (congrArg Prod.fst hl2).symm
        subst ha
        refine ⟨runEntries_seen_mono slots bal0 noCheck rest _ _ hcseen,
          runEntries_storage_zero_stable slots bal0 noCheck rest _ _
            (hseen1 _ hcseen), ?_⟩
        intro hna
        refine ⟨c.balance, ?_, ?_, ?_⟩
        · rw [runEntries_seen_bal_stable slots bal0 noCheck rest _ _ hcseen]
          exact collectorStep_balances_self st c hna
        · rw [← he0eq]
          exact List.mem_cons_self _ _
        · rw [hinv.1]
          exact hinv.2.2.2.1
      · -- tail entry
        have h2 := ih (collectorStep st c) hseen1 hs k v a he hv hig hl
        refine ⟨h2.1, h2.2.1, fun hna => ?_⟩
        by_cases hna1 : a ∈ (collectorStep st c).seenAccounts
        · have ha : a = c.address := by
            by_cases hm2 : c.address ∈ st.seenAccounts
            · rw [collectorStep_of_mem st c hm2] at hna1
              exact absurd hna1 hna
            · rw [collectorStep_seen_of_not_mem st c hm2] at hna1
              rcases List.mem_cons.mp hna1 with h3 | h3
              · exact h3
              · exact absurd h3 hna
          subst ha
          refine ⟨c.balance, ?_, ?_, ?_⟩
          · rw [runEntries_seen_bal_stable slots bal0 noCheck rest _ _ hcseen]
            exact collectorStep_balances_self st c hna
          · rw [← he0eq]
            exact List.mem_cons_self _ _
          · rw [hinv.1]
            exact hinv.2.2.2.1
        · rcases h2.2.2 hna1 with ⟨v', hb, hm3, hv'⟩
          exact ⟨v', hb, List.mem_cons_of_mem _ hm3, hv'⟩
    · -- fail
      rw [runEntries, hp] at hs
      dsimp only at hs
      cases hs
    · -- crash
      rw [runEntries, hp] at hs
      dsimp only at hs
      cases hs

/-! ## Final state of a successful run (C5) -/

/-- Claim C5 counterexample: A successful run does *not* zero allowance
slots: with one migrated balance (address 3, value 4) and one allowance
slot holding 5, the run succeeds but the allowance slot still holds 5.
The worker skips allowance entries without emitting anything, and the
collector only clears the slots of candidates it applies. -/
theorem doMigration_allowance_slot_kept :
    ((doMigration
        ⟨fun _ => 0,
          fun k => if k = StorageKey.allow 1 2 then 5
            else if k = StorageKey.bal 3 then 4
            else if k = StorageKey.raw 2 then 4 else 0⟩
        [(StorageKey.bal 3, 4), (StorageKey.allow 1 2, 5), (StorageKey.raw 2, 4)]
        [3] [(1, 2)] 0 false).outcome = Outcome.ok)
    ∧ (doMigration
        ⟨fun _ => 0,
          fun k => if k = StorageKey.allow 1 2 then 5
            else if k = StorageKey.bal 3 then 4
            else if k = StorageKey.raw 2 then 4 else 0⟩
        [(StorageKey.bal 3, 4), (StorageKey.allow 1 2, 5), (StorageKey.raw 2, 4)]
        [3] [(1, 2)] 0 false).db.legacyStorage (StorageKey.allow 1 2) = 5 := by
  decide

/-- Claim C5 amended: After a successful run the target store shows the
migrated balances (each non-empty legacy balance entry's address holds its
stored value), every scanned legacy balance slot and the legacy
total-supply record hold zero — but legacy allowance storage slots are
left untouched, not zeroed. -/
theorem doMigration_success_state (db0 : StateDB)
    (entries : List (StorageKey × Nat)) (addresses : List Addr)
    (allowances : List (Addr × Addr)) (expDiff : Int) (noCheck : Bool)
    (Hagree : ∀ p ∈ entries, ∀ q ∈ entries, p.1 = q.1 → p.2 = q.2)
    (Hok : (doMigration db0 entries addresses allowances expDiff
        noCheck).outcome = Outcome.ok) :
    (doMigration db0 entries addresses allowances expDiff
        noCheck).db.legacyStorage getOVMETHTotalSupplySlot = 0
    ∧ (∀ f t, (doMigration db0 entries addresses allowances expDiff
          noCheck).db.legacyStorage (StorageKey.allow f t)
        = db0.legacyStorage (StorageKey.allow f t))
    ∧ (∀ a v, (StorageKey.bal a, v) ∈ entries → v ≠ 0 →
        (doMigration db0 entries addresses allowances expDiff
            noCheck).db.balances a = v
        ∧ (doMigration db0 entries addresses allowances expDiff
            noCheck).db.legacyStorage (StorageKey.bal a) = 0) := by
  have Hb := buildSlots_bal_key addresses allowances
  unfold doMigration at Hok ⊢
  rcases hrun : runEntries (buildSlots addresses allowances) db0.balances
      noCheck ⟨[], 0, 0, db0⟩ entries with ⟨st, _ | (m | m)⟩
  · -- clean scan
    rw [hrun] at Hok
    dsimp only at Hok ⊢
    have hs : (runEntries (buildSlots addresses allowances) db0.balances
        noCheck ⟨[], 0, 0, db0⟩ entries).2 = none := by rw [hrun]
    have hst : (runEntries (buildSlots addresses allowances) db0.balances
        noCheck ⟨[], 0, 0, db0⟩ entries).1 = st := by rw [hrun]
    split at Hok
    · cases Hok
    · rename_i hcond
      rw [if_neg hcond]
      refine ⟨by simp [setLegacyState], ?_, ?_⟩
      · intro f t
        have hnb := runEntries_storage_nonbal (buildSlots addresses allowances)
          db0.balances noCheck Hb entries ⟨[], 0, 0, db0⟩
          (StorageKey.allow f t) (fun a hc => StorageKey.noConfusion hc)
        rw [hst] at hnb
        simp only [setLegacyState, getOVMETHTotalSupplySlot]
        rw [if_neg (by simp)]
        exact hnb
      · intro a v hmem hv
        rcases hlk : lookupSlot (buildSlots addresses allowances)
            (StorageKey.bal a) with _ | p
        · exfalso
          have hnf := runEntries_success_no_failentry
            (buildSlots addresses allowances) db0.balances noCheck entries
            ⟨[], 0, 0, db0⟩ hs (StorageKey.bal a, v) hmem
          have hpe := processEntry_unknown (buildSlots addresses allowances)
            db0.balances noCheck (StorageKey.bal a) v hv rfl hlk
          cases noCheck
          · simp only [if_neg (by simp : ¬false = true)] at hpe
            exact hnf.1 _ hpe
          · simp only [if_pos rfl] at hpe
            exact hnf.2 _ hpe
        · have hp' : p = (a, BalanceSlot) :=
            buildSlots_lookup_bal addresses allowances a p hlk
          subst hp'
          have hspec := runEntries_success_spec
            (buildSlots addresses allowances) db0.balances noCheck Hb entries
            ⟨[], 0, 0, db0⟩ (by intro b hb; simp at hb) hs
            (StorageKey.bal a) v a hmem hv rfl hlk
          rw [hst] at hspec
          have hfresh : a ∉ (⟨[], 0, 0, db0⟩ : CollectorState).seenAccounts :=
            by simp
          rcases hspec.2.2 hfresh with ⟨v', hbal, hmem', hv'⟩
          have hvv : v' = v :=
            Hagree (StorageKey.bal a, v') hmem' (StorageKey.bal a, v) hmem rfl
          constructor
          · show (setLegacyState st.db getOVMETHTotalSupplySlot 0).balances a = v
            rw [← hvv, ← hbal]
            rfl
          · show (setLegacyState st.db getOVMETHTotalSupplySlot 0).legacyStorage
                (StorageKey.bal a) = 0
            simp only [setLegacyState, getOVMETHTotalSupplySlot]
            rw [if_neg (by simp)]
            exact hspec.2.1
  · rw [hrun] at Hok
    dsimp only at Hok
    cases Hok
  · rw [hrun] at Hok
    dsimp only at Hok
    cases Hok

/-- Witness for `doMigration_success_state`: one balance entry for address
3 with value 1, total supply 1, expected delta 0, strict mode. -/
theorem doMigration_success_state_witness :
    (doMigration
        ⟨fun _ => 0,
          fun k => if k = StorageKey.bal 3 then 1
            else if k = StorageKey.raw 2 then 1 else 0⟩
        [(StorageKey.bal 3, 1), (StorageKey.raw 2, 1)] [3] [] 0
        false).db.legacyStorage getOVMETHTotalSupplySlot = 0 :=
  (doMigration_success_state
    ⟨fun _ => 0,
      fun k => if k = StorageKey.bal 3 then 1
        else if k = StorageKey.raw 2 then 1 else 0⟩
    [(StorageKey.bal 3, 1), (StorageKey.raw 2, 1)] [3] [] 0 false
    (by decide) (by decide)).1

/-! ## The integrity check precedes the slot-kind dispatch (C6) -/

/-- Claim C6 counterexample: An entry of kind Allowance *does* trigger the
integrity check: with only one allowance entry in the legacy store, whose
owner address 1 holds a non-zero balance, a strict run fails with the
integrity error even though no balance entry exists, whereas the claim
says allowance entries are skipped without triggering the check. -/
theorem doMigration_allowance_integrity_err :
    (doMigration
        ⟨fun a => if a = 1 then 7 else 0,
          fun k => if k = StorageKey.allow 1 2 then 5 else 0⟩
        [(StorageKey.allow 1 2, 5)] [] [(1, 2)] 0 false).outcome
      = Outcome.err
          ("account has non-zero balance in state - should never happen: "
            ++ toString (1 : Nat)) := by
  decide

/-- Claim C6 amended: For a non-empty, non-ignored entry found in the
expectation index with *either* kind, an owning address with a non-zero
balance makes strict mode fail with the fatal integrity error,
stopping the scan with the remaining entries unprocessed; relaxed mode
logs and continues — an Allowance entry is then skipped (emitting no
candidate) and a Balance entry still emits its candidate. -/
theorem integrity_check_all_kinds (slots : SlotList) (bal0 : Addr → Nat)
    (k : StorageKey) (v : Nat) (addr : Addr) (t : Nat)
    (hv : v ≠ 0) (hig : ignoredSlots k = false)
    (hl : lookupSlot slots k = some (addr, t)) (hb : bal0 addr ≠ 0) :
    (∀ (st : CollectorState) (rest : List (StorageKey × Nat)),
      runEntries slots bal0 false st ((k, v) :: rest)
        = (st, some (Failure.failErr
            ("account has non-zero balance in state - should never happen: "
              ++ toString addr))))
    ∧ (t = AllowanceSlot → processEntry slots bal0 true k v = StepResult.skip)
    ∧ (t = BalanceSlot →
        processEntry slots bal0 true k v = StepResult.emit ⟨v, k, addr⟩) := by
  refine ⟨?_, ?_, ?_⟩
  · intro st rest
    rw [runEntries,
      processEntry_known slots bal0 false k v addr t hv hig hl,
      if_pos ⟨hb, rfl⟩]
  · intro ht
    subst ht
    rw [processEntry_known slots bal0 true k v addr AllowanceSlot hv hig hl,
      if_neg (by simp), if_neg (by simp [AllowanceSlot, BalanceSlot]),
      if_pos rfl]
  · intro ht
    subst ht
    rw [processEntry_known slots bal0 true k v addr BalanceSlot hv hig hl,
      if_neg (by simp), if_pos rfl]

/-- Witness for `integrity_check_all_kinds`: an allowance entry for the
pair (1, 2) with owner balance 7. -/
theorem integrity_check_all_kinds_witness :
    runEntries (buildSlots [] [(1, 2)]) (fun a => if a = 1 then 7 else 0)
        false ⟨[], 0, 0, ⟨fun a => if a = 1 then 7 else 0, fun _ => 0⟩⟩
        [(StorageKey.allow 1 2, 5)]
      = (⟨[], 0, 0, ⟨fun a => if a = 1 then 7 else 0, fun _ => 0⟩⟩,
          some (Failure.failErr
            ("account has non-zero balance in state - should never happen: "
              ++ toString (1 : Nat))))
    ∧ processEntry (buildSlots [] [(1, 2)])
        (fun a => if a = 1 then 7 else 0) true (StorageKey.allow 1 2) 5
      = StepResult.skip :=
  have h := integrity_check_all_kinds (buildSlots [] [(1, 2)])
    (fun a => if a = 1 then 7 else 0) (StorageKey.allow 1 2) 5 1 AllowanceSlot
    (by decide) (by decide) (by decide) (by decide)
  ⟨h.1 ⟨[], 0, 0, ⟨fun a => if a = 1 then 7 else 0, fun _ => 0⟩⟩ [],
    h.2.1 rfl⟩

/-- Witness for `collector_dedup`: a duplicate of address 7 against a state
that has already seen address 7. -/
theorem collector_dedup_witness :
    collectorStep ⟨[7], 1, 1, ⟨fun _ => 0, fun _ => 0⟩⟩ ⟨5, StorageKey.bal 7, 7⟩
        = ⟨[7], 1, 1, ⟨fun _ => 0, fun _ => 0⟩⟩
    ∧ runCollector ⟨[7], 1, 1, ⟨fun _ => 0, fun _ => 0⟩⟩
          [⟨5, StorageKey.bal 7, 7⟩]
        = runCollector ⟨[7], 1, 1, ⟨fun _ => 0, fun _ => 0⟩⟩
            (firstOcc [7] [⟨5, StorageKey.bal 7, 7⟩]) :=
  collector_dedup ⟨[7], 1, 1, ⟨fun _ => 0, fun _ => 0⟩⟩ ⟨5, StorageKey.bal 7, 7⟩
    [⟨5, StorageKey.bal 7, 7⟩] (by simp)

